import Mathlib

/-!
Shallow embedding of the quad-tree library (src/src/point.rs, src/src/area.rs,
src/src/qtree.rs, src/src/data.rs) and proofs about it.

Modelling conventions:
* `f32` coordinates are embedded as exact rationals `ℚ`; all arithmetic in the
  source (`+`, `-`, `/ 2.0`, `min`, `max`, `abs`, comparisons) is carried over
  exactly.  The constants `f32::MAX` / `f32::MIN` used as fold seeds in
  `Area::from_points` are embedded as their exact rational values.
* The mutable `&mut self` methods are embedded by explicit state passing: the
  updated node is returned alongside the result value.
* Rust panics (`unreachable!`, `expect`, out-of-bounds indexing into the
  caller-provided results buffer) are embedded as `none` of an `Option`.
* `Node::insert` / `Node::subdivide` are mutually recursive through the point
  list; their recursion is not structurally decreasing, so the embedding takes
  an explicit fuel argument; `none` is returned when the fuel runs out or a
  panic fires.  The leaf scanning loops of `query` take a fuel argument that is
  always instantiated with a provably sufficient bound, so for the loops `none`
  can only mean a buffer-overflow panic.
-/

/-- Embeds `Point` (src/src/point.rs) at payload type `()`: the payload is
irrelevant to all the geometry, so only the coordinates are kept. -/
structure Point where
  x : ℚ
  y : ℚ
deriving DecidableEq, Repr

/-- Embeds `Point::distance_sq` (src/src/point.rs). -/
def Point.distance_sq (p other : Point) : ℚ :=
  let dx := p.x - other.x
  let dy := p.y - other.y
  dx * dx + dy * dy

/-- Embeds `Area` (src/src/area.rs): a square with `width = height = 2 * radius`. -/
structure Area where
  center : Point
  radius : ℚ
deriving DecidableEq, Repr

/-- Embeds `Area::is_point_inside` (src/src/area.rs). -/
def Area.is_point_inside (a : Area) (point : Point) : Bool :=
  (decide (point.x ≥ a.center.x - a.radius) && decide (point.x ≤ a.center.x + a.radius)) &&
  (decide (point.y ≥ a.center.y - a.radius) && decide (point.y ≤ a.center.y + a.radius))

/-- Embeds `Area::intersects` (src/src/area.rs). -/
def Area.intersects (a other : Area) : Bool :=
  let dx := |a.center.x - other.center.x|
  let dy := |a.center.y - other.center.y|
  decide (dx ≤ a.radius + other.radius) && decide (dy ≤ a.radius + other.radius)

/-- Embeds `InsertError` (src/src/qtree.rs). -/
inductive InsertError where
  | outsideArea
deriving DecidableEq, Repr

/-- Embeds `QueryError` (src/src/qtree.rs). -/
inductive QueryError where
  | outsideArea
deriving DecidableEq, Repr

/-- Embeds `Node`/`NodeInner` (src/src/qtree.rs), flattening the struct and the
inner enum into a single inductive: a node is an area together with either a
leaf point list or four children. -/
inductive Node where
  | leaf (area : Area) (points : List Point)
  | intermediate (area : Area) (nw ne sw se : Node)
deriving DecidableEq, Repr

/-- The `area` field of a `Node` (src/src/qtree.rs). -/
def Node.area : Node → Area
  | .leaf a _ => a
  | .intermediate a _ _ _ _ => a

/-- Embeds `Node::size` (src/src/qtree.rs). -/
def Node.size : Node → Nat
  | .leaf _ points => points.length
  | .intermediate _ nw ne sw se => nw.size + ne.size + sw.size + se.size

/-- `MAX_POINTS` (src/src/qtree.rs): max points in a leaf node. -/
def MAX_POINTS : Nat := 1000

/-- North-west child area built by `Node::subdivide` (src/src/qtree.rs),
with `r = radius / 2.0 + 0.01`. -/
def nwArea (area : Area) : Area :=
  let r := area.radius / 2 + 1 / 100
  { center := { x := area.center.x - r, y := area.center.y - r }, radius := r }

/-- North-east child area built by `Node::subdivide` (src/src/qtree.rs). -/
def neArea (area : Area) : Area :=
  let r := area.radius / 2 + 1 / 100
  { center := { x := area.center.x + r, y := area.center.y - r }, radius := r }

/-- South-west child area built by `Node::subdivide` (src/src/qtree.rs). -/
def swArea (area : Area) : Area :=
  let r := area.radius / 2 + 1 / 100
  { center := { x := area.center.x - r, y := area.center.y + r }, radius := r }

/-- South-east child area built by `Node::subdivide` (src/src/qtree.rs). -/
def seArea (area : Area) : Area :=
  let r := area.radius / 2 + 1 / 100
  { center := { x := area.center.x + r, y := area.center.y + r }, radius := r }

/-- The fresh `Intermediate` node that `Node::subdivide` (src/src/qtree.rs)
swaps in place of the old leaf: four empty leaf children. -/
def freshIntermediate (area : Area) : Node :=
  .intermediate area (.leaf (nwArea area) []) (.leaf (neArea area) [])
    (.leaf (swArea area) []) (.leaf (seArea area) [])

/-- One step of the reinsertion loop at the end of `Node::subdivide`
(src/src/qtree.rs): `self.insert(p).expect(..)`, where an `Err` result or a
nested panic/fuel exhaustion (`none`) is a panic (`none`). -/
def insStep (ins : Node → Point → Option (Node × Option InsertError))
    (acc : Option Node) (q : Point) : Option Node :=
  match acc with
  | none => none
  | some n =>
    match ins n q with
    | some (n', none) => some n'
    | some (_, some _) => none
    | none => none

/-- Embeds the tail of `Node::subdivide` (src/src/qtree.rs): swap in the fresh
intermediate node and reinsert every stored point through `insert`
(parameterised by the insert function so that fuel can thread through). -/
def subdivideWith (ins : Node → Point → Option (Node × Option InsertError))
    (area : Area) (points : List Point) : Option Node :=
  points.foldl (insStep ins) (some (freshIntermediate area))

/-- Embeds `Node::insert` (src/src/qtree.rs) with explicit fuel.  Returns the
updated node together with the `Result` value: `some (n', none)` is `Ok(())`
with updated tree `n'`, `some (n', some e)` is `Err(e)` leaving the tree as
`n'`, and `none` is a panic (the `unreachable!` branch, the `expect` in
`subdivide`) or fuel exhaustion. -/
def Node.insert : Nat → Node → Point → Option (Node × Option InsertError)
  | 0, _, _ => none
  | fuel + 1, .leaf area points, point =>
    if area.is_point_inside point = false then
      some (.leaf area points, some .outsideArea)
    else
      let points' := points ++ [point]
      if points'.length > MAX_POINTS then
        match subdivideWith (Node.insert fuel) area points' with
        | some n' => some (n', none)
        | none => none
      else
        some (.leaf area points', none)
  | fuel + 1, .intermediate area nw ne sw se, point =>
    if area.is_point_inside point = false then
      some (.intermediate area nw ne sw se, some .outsideArea)
    else if nw.area.is_point_inside point then
      match Node.insert fuel nw point with
      | some (nw', e) => some (.intermediate area nw' ne sw se, e)
      | none => none
    else if ne.area.is_point_inside point then
      match Node.insert fuel ne point with
      | some (ne', e) => some (.intermediate area nw ne' sw se, e)
      | none => none
    else if sw.area.is_point_inside point then
      match Node.insert fuel sw point with
      | some (sw', e) => some (.intermediate area nw ne sw' se, e)
      | none => none
    else if se.area.is_point_inside point then
      match Node.insert fuel se point with
      | some (se', e) => some (.intermediate area nw ne sw se', e)
      | none => none
    else
      none

/-- Embeds `Vec::swap_remove` at index `i` (used by `QuadTree::query_remove`,
src/src/qtree.rs): the element at `i` is replaced by the last element and the
last element is popped. -/
def swapRemove (l : List Point) (i : Nat) : List Point :=
  (l.set i (l.getLast?.getD { x := 0, y := 0 })).dropLast

/-- Embeds the leaf `while` loop of `Node::query` (src/src/qtree.rs) for
`QuadTree::query`, where `get_point` is `|points, idx| points[idx].clone()`.
Note the loop advances `i` only when `points[i]` is NOT inside the query area;
after a match the same index is scanned again.  Writing past the end of the
results buffer is a panic (`none`).  The fuel argument is instantiated by the
caller with a sufficient bound (see `Node.queryClone`). -/
def scanLoop (fuel : Nat) (a : Area) (points : List Point) (i : Nat)
    (results : List Point) (idx : Nat) : Option (List Point × Nat) :=
  match fuel with
  | 0 => none
  | fuel + 1 =>
    if h : i < points.length then
      if a.is_point_inside points[i] = false then
        scanLoop fuel a points (i + 1) results idx
      else if idx < results.length then
        scanLoop fuel a points i (results.set idx points[i]) (idx + 1)
      else
        none
    else
      some (results, idx)

/-- Embeds the leaf `while` loop of `Node::query` (src/src/qtree.rs) for
`QuadTree::query_remove`, where `get_point` is `|points, idx|
points.swap_remove(idx)`: a matching point is removed from the leaf list and
written to the buffer, and the same index is scanned again (it now holds the
old last element). -/
def removeLoop (fuel : Nat) (a : Area) (points : List Point) (i : Nat)
    (results : List Point) (idx : Nat) : Option (List Point × List Point × Nat) :=
  match fuel with
  | 0 => none
  | fuel + 1 =>
    if h : i < points.length then
      if a.is_point_inside points[i] = false then
        removeLoop fuel a points (i + 1) results idx
      else if idx < results.length then
        removeLoop fuel a (swapRemove points i) i (results.set idx points[i]) (idx + 1)
      else
        none
    else
      some (points, results, idx)

/-- Sufficient fuel for `scanLoop`/`removeLoop`: every iteration either
advances `i` (bounded by the point count) or advances `idx` (bounded by the
buffer length before the panic). -/
def loopFuel (points results : List Point) : Nat :=
  points.length + results.length + 1

/-- Embeds `Node::query` (src/src/qtree.rs) instantiated with the cloning
`get_point` of `QuadTree::query`.  State `(results, idx)` is threaded through
the recursion; `some (.error e)` is `Err(e)`, `none` is a panic. -/
def Node.queryClone (a : Area) : Node → List Point → Nat →
    Option (Except QueryError (List Point × Nat))
  | .leaf area points, results, idx =>
    if area.intersects a = false then
      some (.error .outsideArea)
    else
      match scanLoop (loopFuel points results) a points 0 results idx with
      | some (results', idx') => some (.ok (results', idx'))
      | none => none
  | .intermediate area nw ne sw se, results, idx =>
    if area.intersects a = false then
      some (.error .outsideArea)
    else
      match (if nw.area.intersects a then Node.queryClone a nw results idx
             else some (.ok (results, idx))) with
      | some (.ok (r1, i1)) =>
        match (if ne.area.intersects a then Node.queryClone a ne r1 i1
               else some (.ok (r1, i1))) with
        | some (.ok (r2, i2)) =>
          match (if sw.area.intersects a then Node.queryClone a sw r2 i2
                 else some (.ok (r2, i2))) with
          | some (.ok (r3, i3)) =>
            match (if se.area.intersects a then Node.queryClone a se r3 i3
                   else some (.ok (r3, i3))) with
            | some (.ok (r4, i4)) => some (.ok (r4, i4))
            | other => other
          | other => other
        | other => other
      | other => other

/-- Embeds `Node::query` (src/src/qtree.rs) instantiated with the removing
`get_point` of `QuadTree::query_remove`; additionally returns the updated
node. -/
def Node.queryRem (a : Area) : Node → List Point → Nat →
    Option (Except QueryError (Node × List Point × Nat))
  | .leaf area points, results, idx =>
    if area.intersects a = false then
      some (.error .outsideArea)
    else
      match removeLoop (loopFuel points results) a points 0 results idx with
      | some (points', results', idx') => some (.ok (.leaf area points', results', idx'))
      | none => none
  | .intermediate area nw ne sw se, results, idx =>
    if area.intersects a = false then
      some (.error .outsideArea)
    else
      match (if nw.area.intersects a then Node.queryRem a nw results idx
             else some (.ok (nw, results, idx))) with
      | some (.ok (nw', r1, i1)) =>
        match (if ne.area.intersects a then Node.queryRem a ne r1 i1
               else some (.ok (ne, r1, i1))) with
        | some (.ok (ne', r2, i2)) =>
          match (if sw.area.intersects a then Node.queryRem a sw r2 i2
                 else some (.ok (sw, r2, i2))) with
          | some (.ok (sw', r3, i3)) =>
            match (if se.area.intersects a then Node.queryRem a se r3 i3
                   else some (.ok (se, r3, i3))) with
            | some (.ok (se', r4, i4)) =>
              some (.ok (.intermediate area nw' ne' sw' se', r4, i4))
            | some (.error e) => some (.error e)
            | none => none
          | some (.error e) => some (.error e)
          | none => none
        | some (.error e) => some (.error e)
        | none => none
      | some (.error e) => some (.error e)
      | none => none

/-- Embeds `min_point` (src/src/qtree.rs). -/
def min_point (a b : Option (ℚ × Point)) : Option (ℚ × Point) :=
  match a, b with
  | none, none => none
  | none, some x => some x
  | some x, none => some x
  | some (dist_a, point_a), some (dist_b, point_b) =>
    if dist_a < dist_b then some (dist_a, point_a) else some (dist_b, point_b)

/-- Embeds `Node::nearest` (src/src/qtree.rs).  NOTE: in the `Intermediate`
arm the source recurses into `nw` in all four branches (`ne.area`, `sw.area`,
`se.area` are tested but `nw.nearest(point)` is called each time); the
embedding reproduces this faithfully. -/
def Node.nearest : Node → Point → Except QueryError (Option (ℚ × Point))
  | .leaf area points, point =>
    if area.is_point_inside point = false then
      .error .outsideArea
    else
      .ok (points.foldl (fun acc p => min_point acc (some (p.distance_sq point, p))) none)
  | .intermediate area nw ne sw se, point =>
    if area.is_point_inside point = false then
      .error .outsideArea
    else
      match (if nw.area.is_point_inside point
             then (Node.nearest nw point).map (min_point none)
             else .ok none) with
      | .error e => .error e
      | .ok r1 =>
        match (if ne.area.is_point_inside point
               then (Node.nearest nw point).map (min_point r1)
               else .ok r1) with
        | .error e => .error e
        | .ok r2 =>
          match (if sw.area.is_point_inside point
                 then (Node.nearest nw point).map (min_point r2)
                 else .ok r2) with
          | .error e => .error e
          | .ok r3 =>
            match (if se.area.is_point_inside point
                   then (Node.nearest nw point).map (min_point r3)
                   else .ok r3) with
            | .error e => .error e
            | .ok r4 => .ok r4

/-- Embeds `QuadTree::new` (src/src/qtree.rs): the root is an empty leaf. -/
def QuadTree.new (area : Area) : Node :=
  .leaf area []

/-- Embeds `QuadTree::size` (src/src/qtree.rs). -/
def QuadTree.size (t : Node) : Nat :=
  t.size

/-- Embeds `QuadTree::insert` (src/src/qtree.rs) with explicit fuel. -/
def QuadTree.insert (fuel : Nat) (t : Node) (point : Point) :
    Option (Node × Option InsertError) :=
  Node.insert fuel t point

/-- Embeds `QuadTree::query` (src/src/qtree.rs): runs the node query with the
cloning `get_point` starting at `idx = 0` and returns the filled buffer with
the count of points written. -/
def QuadTree.query (t : Node) (area : Area) (results : List Point) :
    Option (Except QueryError (List Point × Nat)) :=
  Node.queryClone area t results 0

/-- Embeds `QuadTree::query_remove` (src/src/qtree.rs): like `query` but with
the removing `get_point`; returns the updated tree, the filled buffer and the
count. -/
def QuadTree.query_remove (t : Node) (area : Area) (results : List Point) :
    Option (Except QueryError (Node × List Point × Nat)) :=
  Node.queryRem area t results 0

/-- Embeds `QuadTree::nearest` (src/src/qtree.rs): drops the distance from the
node-level result. -/
def QuadTree.nearest (t : Node) (point : Point) : Except QueryError (Option Point) :=
  (Node.nearest t point).map (fun opt => opt.map (fun x => x.2))

/-- Embeds `Point<f32>` as used by the point codec (src/src/data.rs): each
`f32` field is represented by its IEEE-754 bit pattern, a natural number below
`2 ^ 32`.  The codec never does arithmetic on the values, it only moves the
four little-endian bytes of each field, so the bit-pattern view is exact. -/
structure RawPoint where
  x : Nat
  y : Nat
  data : Nat
deriving DecidableEq, Repr

/-- The four little-endian bytes of a 32-bit word, as produced by
`f32::to_le_bytes` on the word's bit pattern (src/src/data.rs). -/
def toLeBytes (n : Nat) : List Nat :=
  [n % 256, n / 256 % 256, n / 65536 % 256, n / 16777216 % 256]

/-- Recombines four little-endian bytes into a 32-bit word, as
`f32::from_le_bytes` does on bit patterns (src/src/data.rs). -/
def fromLeBytes (b0 b1 b2 b3 : Nat) : Nat :=
  b0 + 256 * b1 + 65536 * b2 + 16777216 * b3

/-- Embeds `PointWriter::write` (src/src/data.rs): the 12-byte record of one
point, `x` then `y` then `data`, each as four little-endian bytes. -/
def PointWriter.write (point : RawPoint) : List Nat :=
  toLeBytes point.x ++ toLeBytes point.y ++ toLeBytes point.data

/-- Embeds `write_points` (src/src/data.rs): the records of all points,
concatenated in order with no header or delimiter. -/
def write_points : List RawPoint → List Nat
  | [] => []
  | p :: rest => PointWriter.write p ++ write_points rest

/-- Writes the component value into `comps[comp_idx]`
(`comps[comp_idx] = comp` in `PointReader::read`, src/src/data.rs). -/
def setComp (comps : Nat × Nat × Nat) (i v : Nat) : Nat × Nat × Nat :=
  if i = 0 then (v, comps.2.1, comps.2.2)
  else if i = 1 then (comps.1, v, comps.2.2)
  else (comps.1, comps.2.1, v)

/-- Embeds the `loop` of `PointReader::read` (src/src/data.rs) over an
in-memory byte stream.  `read_exact` on such a stream either fills the 4-byte
buffer or fails with `UnexpectedEof` (which the source catches and turns into
a clean `break`), so the loop consumes 4 bytes at a time and stops as soon as
fewer than 4 bytes remain; no error is ever produced. -/
def readLoop : List Nat → Nat × Nat × Nat → Nat → List RawPoint
  | b0 :: b1 :: b2 :: b3 :: rest, comps, comp_idx =>
    let comp := fromLeBytes b0 b1 b2 b3
    let comps' := setComp comps comp_idx comp
    if comp_idx + 1 = 3 then
      { x := comps'.1, y := comps'.2.1, data := comps'.2.2 } :: readLoop rest comps' 0
    else
      readLoop rest comps' (comp_idx + 1)
  | _, _, _ => []

/-- Embeds `read_points` / `PointReader::read` (src/src/data.rs): components
start zeroed with `comp_idx = 0`, and the `Ok` payload of the read is the list
of decoded points. -/
def read_points (bytes : List Nat) : List RawPoint :=
  readLoop bytes (0, 0, 0) 0

/-- Concrete fixture: tree area centered at the origin with radius 1. -/
def areaOne : Area := { center := { x := 0, y := 0 }, radius := 1 }

/-- Concrete fixture: the origin point, inside `areaOne`. -/
def originPt : Point := { x := 0, y := 0 }

/-- Concrete fixture: a point outside `areaOne`. -/
def farPt : Point := { x := 5, y := 5 }

/-- Concrete fixture: filler contents for result buffers. -/
def fillPt : Point := { x := 9, y := 9 }

/-- Concrete fixture: a subdivided tree over `areaOne` holding exactly one
point, stored in the south-east child (the shape `subdivide` plus removals can
produce). -/
def oneInSeTree : Node :=
  .intermediate areaOne (.leaf (nwArea areaOne) []) (.leaf (neArea areaOne) [])
    (.leaf (swArea areaOne) []) (.leaf (seArea areaOne) [Point.mk (3/5) (3/5)])

/-- A node is clean for the query area `a` when every leaf that the query
traversal can reach (pruning by area intersection, exactly as `Node::query`
does) holds no point strictly inside `a`. -/
def Clean (a : Area) : Node → Prop
  | .leaf ar pts => ar.intersects a = true → ∀ q ∈ pts, a.is_point_inside q = false
  | .intermediate ar c1 c2 c3 c4 =>
      ar.intersects a = true → Clean a c1 ∧ Clean a c2 ∧ Clean a c3 ∧ Clean a c4

/-- The IEEE-754 single-precision overflow boundary: an exact result whose
magnitude is at least `2 ^ 128 - 2 ^ 103` (the midpoint between `f32::MAX`
and `2 ^ 128`) rounds to the signed infinity under round-to-nearest-even. -/
def f32OverflowBound : ℚ := 2 ^ 128 - 2 ^ 103

/-- Embeds the `f32` values flowing through `Area::from_points` and the
containment test applied to its result, keeping the IEEE-754 special values.
A finite value is carried as an exact rational (rounding of in-range results
is idealized as exact); a result at or past the overflow boundary becomes the
signed infinity, and NaN propagates, exactly as in IEEE-754 arithmetic. -/
inductive F32 where
  | finite (val : ℚ)
  | inf
  | negInf
  | nan
deriving DecidableEq, Repr

/-- Rounding of an exact finite result: in range it is kept exact, out of
range it overflows to the signed infinity. -/
def F32.round (q : ℚ) : F32 :=
  if q ≥ f32OverflowBound then .inf
  else if q ≤ -f32OverflowBound then .negInf
  else .finite q

/-- IEEE-754 `<=` on `f32`: false whenever either operand is NaN. -/
def F32.le : F32 → F32 → Bool
  | .nan, _ => false
  | _, .nan => false
  | .negInf, _ => true
  | .finite _, .negInf => false
  | .finite a, .finite b => decide (a ≤ b)
  | .finite _, .inf => true
  | .inf, .inf => true
  | .inf, .finite _ => false
  | .inf, .negInf => false

/-- IEEE-754 `>=` on `f32`. -/
def F32.ge (a b : F32) : Bool := F32.le b a

/-- IEEE-754 `f32` addition on the values the bounding-box computation can
produce: exact (with overflow) on finite operands, infinity absorbing, and
`inf + (-inf) = NaN`. -/
def F32.add : F32 → F32 → F32
  | .nan, _ => .nan
  | _, .nan => .nan
  | .finite a, .finite b => F32.round (a + b)
  | .inf, .negInf => .nan
  | .negInf, .inf => .nan
  | .inf, _ => .inf
  | _, .inf => .inf
  | .negInf, _ => .negInf
  | _, .negInf => .negInf

/-- IEEE-754 `f32` subtraction; in particular `inf - inf = NaN`. -/
def F32.sub : F32 → F32 → F32
  | .nan, _ => .nan
  | _, .nan => .nan
  | .finite a, .finite b => F32.round (a - b)
  | .inf, .inf => .nan
  | .negInf, .negInf => .nan
  | .inf, _ => .inf
  | .negInf, _ => .negInf
  | .finite _, .inf => .negInf
  | .finite _, .negInf => .inf

/-- A 2-D point with `f32` coordinates carried at IEEE-754 fidelity. -/
structure F32Point where
  x : F32
  y : F32
deriving DecidableEq, Repr

/-- An `Area` whose center and radius are carried at IEEE-754 fidelity. -/
structure F32Area where
  center : F32Point
  radius : F32
deriving DecidableEq, Repr

/-- Embeds `Area::is_point_inside` (src/src/area.rs) at IEEE-754 fidelity:
any comparison against a NaN bound is false. -/
def F32Area.is_point_inside (a : F32Area) (point : F32Point) : Bool :=
  (F32.ge point.x (F32.sub a.center.x a.radius) &&
    F32.le point.x (F32.add a.center.x a.radius)) &&
  (F32.ge point.y (F32.sub a.center.y a.radius) &&
    F32.le point.y (F32.add a.center.y a.radius))

/-- Serializing one 32-bit word to its little-endian bytes and recombining the
bytes is the identity. -/
lemma fromLeBytes_toLeBytes (n : Nat) (h : n < 4294967296) :
    fromLeBytes (n % 256) (n / 256 % 256) (n / 65536 % 256) (n / 16777216 % 256) = n := by
  unfold fromLeBytes
  omega

/-- Decoding the serialized form of a point list recovers the list, whatever
leftover component state the reader starts from. -/
lemma readLoop_write_points (pts : List RawPoint)
    (h : ∀ p ∈ pts, p.x < 4294967296 ∧ p.y < 4294967296 ∧ p.data < 4294967296) :
    ∀ comps, readLoop (write_points pts) comps 0 = pts := by
  induction pts with
  | nil => intro comps; rfl
  | cons p rest ih =>
    intro comps
    obtain ⟨hx, hy, hd⟩ := h p (by simp)
    have hrest := fun q hq => h q (List.mem_cons_of_mem p hq)
    simp only [write_points, PointWriter.write, toLeBytes, List.cons_append, List.nil_append]
    simp only [readLoop, setComp]
    norm_num
    rw [fromLeBytes_toLeBytes p.x hx, fromLeBytes_toLeBytes p.y hy,
      fromLeBytes_toLeBytes p.data hd]
    exact ⟨rfl, ih hrest _⟩

/-- C9: For every list of points whose components are 32-bit words,
serializing via the binary record layout (`write_points`) and deserializing
the resulting byte stream (`read_points`) yields the original points
unchanged — the codec moves bit patterns only, so preservation is exact. -/
theorem write_points_read_points_roundtrip (pts : List RawPoint)
    (h : ∀ p ∈ pts, p.x < 4294967296 ∧ p.y < 4294967296 ∧ p.data < 4294967296) :
    read_points (write_points pts) = pts := by
  unfold read_points
  exact readLoop_write_points pts h _

/-- Witness for `write_points_read_points_roundtrip` at a concrete two-point
list (the bit patterns of the floats used in the source's own round-trip
test). -/
theorem write_points_read_points_roundtrip_witness :
    (∀ p ∈ [RawPoint.mk 1056964608 1065353216 3215519432, RawPoint.mk 1073741824 1077936128 3229614080],
      p.x < 4294967296 ∧ p.y < 4294967296 ∧ p.data < 4294967296) ∧
    read_points (write_points
      [RawPoint.mk 1056964608 1065353216 3215519432, RawPoint.mk 1073741824 1077936128 3229614080]) =
      [RawPoint.mk 1056964608 1065353216 3215519432, RawPoint.mk 1073741824 1077936128 3229614080] := by
  refine ⟨by decide, write_points_read_points_roundtrip _ (by decide)⟩

/-- The reader consumes one component per full 4-byte chunk and emits one
point per three components, starting from component index `i < 3`. -/
lemma readLoop_length (n : Nat) : ∀ (bytes : List Nat) (comps : Nat × Nat × Nat) (i : Nat),
    bytes.length = n → i < 3 → (readLoop bytes comps i).length = (i + bytes.length / 4) / 3 := by
  induction n using Nat.strong_induction_on with
  | _ n ih =>
    intro bytes comps i hlen hi
    match bytes with
    | [] => simp [readLoop]; omega
    | [b0] => simp [readLoop]; omega
    | [b0, b1] => simp [readLoop]; omega
    | [b0, b2, b3] => simp [readLoop]; omega
    | b0 :: b1 :: b2 :: b3 :: rest =>
      simp only [readLoop]
      by_cases h3 : i + 1 = 3
      · have hr := ih rest.length (by simp at hlen; omega) rest
          (setComp comps i (fromLeBytes b0 b1 b2 b3)) 0 rfl (by omega)
        simp [h3, hr]
        omega
      · have hr := ih rest.length (by simp at hlen; omega) rest
          (setComp comps i (fromLeBytes b0 b1 b2 b3)) (i + 1) rfl (by omega)
        simp [h3, hr]
        omega

/-- C10 (amended): reading never faults on a truncated stream; for every byte
stream the reader returns exactly one point per complete 12-byte record
prefix, silently discarding a trailing partial record. -/
theorem read_points_length (bytes : List Nat) :
    (read_points bytes).length = bytes.length / 12 := by
  unfold read_points
  rw [readLoop_length bytes.length bytes (0, 0, 0) 0 rfl (by omega)]
  omega

/-- C10 (counterexample to the claim as stated): a 4-byte stream ends
mid-record (4 is not a multiple of 12), yet `read_points` stops cleanly and
returns the empty point list — a clean success, not a decode fault. -/
theorem read_points_midrecord_succeeds :
    read_points [0, 0, 0, 0] = [] ∧ ([0, 0, 0, 0] : List Nat).length % 12 = 4 := by
  exact ⟨rfl, rfl⟩

/-- C4: inserting a point outside the node's area fails with `OutsideArea` and
returns the tree unchanged (the same node, hence the same `size`). -/
theorem insert_outside_area_unchanged (fuel : Nat) (t : Node) (p : Point)
    (h : t.area.is_point_inside p = false) :
    QuadTree.insert (fuel + 1) t p = some (t, some InsertError.outsideArea) := by
  cases t <;> simp_all [QuadTree.insert, Node.insert, Node.area]

/-- Witness for `insert_outside_area_unchanged`: `farPt` is outside `areaOne`
and its insertion into a fresh tree fails, leaving the tree untouched. -/
theorem insert_outside_area_unchanged_witness :
    (QuadTree.new areaOne).area.is_point_inside farPt = false ∧
    QuadTree.insert 1 (QuadTree.new areaOne) farPt =
      some (QuadTree.new areaOne, some InsertError.outsideArea) := by
  have h : (QuadTree.new areaOne).area.is_point_inside farPt = false := by
    norm_num [QuadTree.new, Node.area, Area.is_point_inside, areaOne, farPt]
  exact ⟨h, insert_outside_area_unchanged 0 _ _ h⟩

/-- C1: evaluation of the code at the failing input.  The point `originPt` is
successfully inserted into a fresh tree over `areaOne` (whose area contains
it), but a query over the root area itself — which contains the point — does
not copy it once and return a count: the leaf scan never advances past a
matching point, so it keeps copying `originPt` until the 2-slot results buffer
overflows and the indexing panics (`none`). -/
theorem query_panics_on_matching_point :
    Node.insert 1 (QuadTree.new areaOne) originPt = some (Node.leaf areaOne [originPt], none) ∧
    areaOne.is_point_inside originPt = true ∧
    QuadTree.query (Node.leaf areaOne [originPt]) areaOne [fillPt, fillPt] = none := by
  refine ⟨?_, ?_, ?_⟩
  · norm_num [Node.insert, QuadTree.new, Area.is_point_inside, areaOne, originPt, MAX_POINTS]
  · norm_num [Area.is_point_inside, areaOne, originPt]
  · norm_num [QuadTree.query, Node.queryClone, scanLoop, loopFuel, Area.intersects,
      Area.is_point_inside, areaOne, originPt, fillPt]

/-- C3: evaluation of the code at the failing input.  On a subdivided node
(exactly the four empty children `subdivide` creates for `areaOne`), the query
point `(3/5, 3/5)` lies inside the root area — only the south-east child
contains it — yet `nearest` returns the `OutsideArea` error, because the
south-east branch recurses into the north-west child, which does not contain
the point. -/
theorem nearest_errors_inside_root_area :
    areaOne.is_point_inside (Point.mk (3/5) (3/5)) = true ∧
    QuadTree.nearest (freshIntermediate areaOne) (Point.mk (3/5) (3/5)) =
      .error QueryError.outsideArea := by
  constructor
  · norm_num [Area.is_point_inside, areaOne]
  · norm_num [QuadTree.nearest, Node.nearest, freshIntermediate, Node.area,
      Area.is_point_inside, nwArea, neArea, swArea, seArea, areaOne, Except.map]

/-- C7 (counterexample to the claim as stated): `oneInSeTree` holds exactly one
point, and the query point `(-3/5, -3/5)` is inside the root area, yet
`nearest` returns `Ok(None)`: the only child whose area contains the query
point is the empty north-west leaf, and the other children are never
consulted.  So `None` is not returned only on empty trees, and a tree with
exactly one point P need not return P. -/
theorem nearest_none_on_nonempty_tree :
    QuadTree.size oneInSeTree = 1 ∧
    areaOne.is_point_inside (Point.mk (-3/5) (-3/5)) = true ∧
    QuadTree.nearest oneInSeTree (Point.mk (-3/5) (-3/5)) = .ok none := by
  refine ⟨rfl, ?_, ?_⟩
  · norm_num [Area.is_point_inside, areaOne]
  · norm_num [QuadTree.nearest, Node.nearest, oneInSeTree, Node.area,
      Area.is_point_inside, nwArea, neArea, swArea, seArea, areaOne, min_point,
      Except.map, Option.map]

/-- C7 (amended): for every root area `a` and points `P`, `Q` inside it:
`nearest` on the fresh (empty) tree returns `Ok(None)`; inserting `P` yields
the single-leaf tree holding `[P]`; and `nearest(Q)` on that single-leaf
single-point tree returns `Ok(Some P)`. -/
theorem nearest_empty_and_singleton (a : Area) (P Q : Point)
    (hP : a.is_point_inside P = true) (hQ : a.is_point_inside Q = true) :
    QuadTree.nearest (QuadTree.new a) Q = .ok none ∧
    Node.insert 1 (QuadTree.new a) P = some (Node.leaf a [P], none) ∧
    QuadTree.nearest (Node.leaf a [P]) Q = .ok (some P) := by
  refine ⟨?_, ?_, ?_⟩
  · simp [QuadTree.nearest, QuadTree.new, Node.nearest, hQ, Except.map, Option.map]
  · simp [Node.insert, QuadTree.new, hP, MAX_POINTS]
  · simp [QuadTree.nearest, Node.nearest, hQ, min_point, Except.map, Option.map]

/-- Witness for `nearest_empty_and_singleton` at a concrete area and points. -/
theorem nearest_empty_and_singleton_witness :
    QuadTree.nearest (QuadTree.new areaOne) (Point.mk (1/2) (1/2)) = .ok none ∧
    Node.insert 1 (QuadTree.new areaOne) originPt = some (Node.leaf areaOne [originPt], none) ∧
    QuadTree.nearest (Node.leaf areaOne [originPt]) (Point.mk (1/2) (1/2)) = .ok (some originPt) := by
  exact nearest_empty_and_singleton areaOne originPt (Point.mk (1/2) (1/2))
    (by norm_num [Area.is_point_inside, areaOne, originPt])
    (by norm_num [Area.is_point_inside, areaOne])

/-- Once the reinsertion loop of `subdivide` has panicked, it stays panicked. -/
lemma foldl_insStep_none (ins : Node → Point → Option (Node × Option InsertError)) :
    ∀ l : List Point, l.foldl (insStep ins) none = none := by
  intro l
  induction l with
  | nil => rfl
  | cons q rest ihl => simpa [insStep] using ihl

/-- If every successful insert grows the node by one point, the reinsertion
loop of `subdivide` grows the node by the length of the reinserted list. -/
lemma foldl_insStep_size (ins : Node → Point → Option (Node × Option InsertError))
    (hins : ∀ n p n', ins n p = some (n', none) → n'.size = n.size + 1) :
    ∀ (l : List Point) (acc nf : Node),
      l.foldl (insStep ins) (some acc) = some nf → nf.size = acc.size + l.length := by
  intro l
  induction l with
  | nil => intro acc nf h; simp at h; simp [h]
  | cons q rest ihl =>
    intro acc nf h
    simp only [List.foldl_cons] at h
    rcases hq : ins acc q with _ | ⟨n1, e⟩
    · rw [insStep, hq] at h
      rw [foldl_insStep_none] at h
      cases h
    · rcases e with _ | err
      · rw [insStep, hq] at h
        have h1 := ihl n1 nf h
        have h2 := hins acc q n1 hq
        simp [h1, h2]
        omega
      · rw [insStep, hq] at h
        rw [foldl_insStep_none] at h
        cases h

/-- Every successful `insert` (with any fuel) increases `size` by exactly
one; in particular a subdivision triggered by the insert redistributes all the
points without losing or duplicating any. -/
lemma insert_ok_size (fuel : Nat) : ∀ (n : Node) (p : Point) (n' : Node),
    Node.insert fuel n p = some (n', none) → n'.size = n.size + 1 := by
  induction fuel using Nat.strong_induction_on with
  | _ fuel ih =>
    intro n p n' h
    match fuel, n with
    | 0, n => rw [Node.insert] at h; cases h
    | f + 1, .leaf area pts =>
      rw [Node.insert] at h
      by_cases hin : area.is_point_inside p = false
      · simp [hin] at h
      · simp only [hin, if_false] at h
        by_cases hlen : (pts ++ [p]).length > MAX_POINTS
        · simp only [hlen, if_true] at h
          rcases hsub : subdivideWith (Node.insert f) area (pts ++ [p]) with _ | nsub
          · rw [hsub] at h; cases h
          · rw [hsub] at h
            simp at h
            have hsz := foldl_insStep_size (Node.insert f)
              (fun n p n' hh => ih f (by omega) n p n' hh)
              (pts ++ [p]) (freshIntermediate area) nsub hsub
            simp [freshIntermediate, Node.size] at hsz
            subst h
            simp [Node.size, hsz]
        · simp only [hlen, if_false] at h
          simp at h
          subst h
          simp [Node.size]
    | f + 1, .intermediate area nw ne sw se =>
      rw [Node.insert] at h
      by_cases hin : area.is_point_inside p = false
      · simp [hin] at h
      · simp only [hin, if_false] at h
        by_cases hnw : nw.area.is_point_inside p = true
        · simp only [hnw, if_true] at h
          rcases hc : Node.insert f nw p with _ | ⟨nw', e⟩
          · rw [hc] at h; cases h
          · rw [hc] at h
            simp at h
            obtain ⟨hn', he⟩ := h
            subst he
            have := ih f (by omega) nw p nw' hc
            simp [← hn', Node.size, this]
            omega
        · simp only [hnw, if_false] at h
          by_cases hne : ne.area.is_point_inside p = true
          · simp only [hne, if_true] at h
            rcases hc : Node.insert f ne p with _ | ⟨ne', e⟩
            · rw [hc] at h; cases h
            · rw [hc] at h
              simp at h
              obtain ⟨hn', he⟩ := h
              subst he
              have := ih f (by omega) ne p ne' hc
              simp [← hn', Node.size, this]
              omega
          · simp only [hne, if_false] at h
            by_cases hsw : sw.area.is_point_inside p = true
            · simp only [hsw, if_true] at h
              rcases hc : Node.insert f sw p with _ | ⟨sw', e⟩
              · rw [hc] at h; cases h
              · rw [hc] at h
                simp at h
                obtain ⟨hn', he⟩ := h
                subst he
                have := ih f (by omega) sw p sw' hc
                simp [← hn', Node.size, this]
                omega
            · simp only [hsw, if_false] at h
              by_cases hse : se.area.is_point_inside p = true
              · simp only [hse, if_true] at h
                rcases hc : Node.insert f se p with _ | ⟨se', e⟩
                · rw [hc] at h; cases h
                · rw [hc] at h
                  simp at h
                  obtain ⟨hn', he⟩ := h
                  subst he
                  have := ih f (by omega) se p se' hc
                  simp [← hn', Node.size, this]
                  omega
              · simp [hse] at h

/-- C6: (1) every successful insert — including one that triggers a
subdivision — increases `size()` by exactly one, so subdivision preserves the
total point count and the reinsertion panics do not fire; (2) a leaf whose
count after the append does not exceed `MAX_POINTS = 1000` just accumulates
the appended point and stays a leaf. -/
theorem insert_increments_size :
    (∀ (fuel : Nat) (n : Node) (p : Point) (n' : Node),
      Node.insert fuel n p = some (n', none) → QuadTree.size n' = QuadTree.size n + 1) ∧
    (∀ (fuel : Nat) (a : Area) (pts : List Point) (p : Point),
      a.is_point_inside p = true → pts.length + 1 ≤ MAX_POINTS →
      Node.insert (fuel + 1) (.leaf a pts) p = some (.leaf a (pts ++ [p]), none)) := by
  constructor
  · intro fuel n p n' h
    exact insert_ok_size fuel n p n' h
  · intro fuel a pts p hin hlen
    rw [Node.insert]
    simp [hin]
    omega

/-- Witness for `insert_increments_size`: inserting the origin point into a
fresh tree over `areaOne` appends it to the empty leaf and grows the size from
0 to 1. -/
theorem insert_increments_size_witness :
    QuadTree.size (Node.leaf areaOne [originPt]) = QuadTree.size (QuadTree.new areaOne) + 1 ∧
    Node.insert 1 (Node.leaf areaOne []) originPt =
      some (Node.leaf areaOne ([] ++ [originPt]), none) := by
  have hin : areaOne.is_point_inside originPt = true := by
    norm_num [Area.is_point_inside, areaOne, originPt]
  constructor
  · exact insert_increments_size.1 1 (QuadTree.new areaOne) originPt _
      (by norm_num [Node.insert, QuadTree.new, hin, MAX_POINTS])
  · exact insert_increments_size.2 0 areaOne [] originPt hin (by norm_num [MAX_POINTS])

/-- Inserting into a leaf with room (strictly below capacity after the append)
just appends the point. -/
lemma insert_leaf_append (fuel : Nat) (a : Area) (pts : List Point) (p : Point)
    (hin : a.is_point_inside p = true) (hlen : pts.length + 1 ≤ MAX_POINTS) :
    Node.insert (fuel + 1) (.leaf a pts) p = some (.leaf a (pts ++ [p]), none) := by
  rw [Node.insert]
  simp [hin]
  omega

/-- Inserting into an intermediate node whose first (`nw`) child contains the
point recurses into that child. -/
lemma insert_inter_nw (f : Nat) (area : Area) (c1 c2 c3 c4 : Node) (p : Point)
    (harea : area.is_point_inside p = true) (h1 : c1.area.is_point_inside p = true) :
    Node.insert (f + 1) (.intermediate area c1 c2 c3 c4) p =
      (match Node.insert f c1 p with
       | some (c1', e) => some (.intermediate area c1' c2 c3 c4, e)
       | none => none) := by
  rw [Node.insert]
  simp [harea, h1]

/-- Inserting into an intermediate node recurses into `ne` when `nw` misses
and `ne` contains the point. -/
lemma insert_inter_ne (f : Nat) (area : Area) (c1 c2 c3 c4 : Node) (p : Point)
    (harea : area.is_point_inside p = true) (h1 : c1.area.is_point_inside p = false)
    (h2 : c2.area.is_point_inside p = true) :
    Node.insert (f + 1) (.intermediate area c1 c2 c3 c4) p =
      (match Node.insert f c2 p with
       | some (c2', e) => some (.intermediate area c1 c2' c3 c4, e)
       | none => none) := by
  rw [Node.insert]
  simp [harea, h1, h2]

/-- Inserting into an intermediate node recurses into `sw` when `nw`, `ne`
miss and `sw` contains the point. -/
lemma insert_inter_sw (f : Nat) (area : Area) (c1 c2 c3 c4 : Node) (p : Point)
    (harea : area.is_point_inside p = true) (h1 : c1.area.is_point_inside p = false)
    (h2 : c2.area.is_point_inside p = false) (h3 : c3.area.is_point_inside p = true) :
    Node.insert (f + 1) (.intermediate area c1 c2 c3 c4) p =
      (match Node.insert f c3 p with
       | some (c3', e) => some (.intermediate area c1 c2 c3' c4, e)
       | none => none) := by
  rw [Node.insert]
  simp [harea, h1, h2, h3]

/-- Inserting into an intermediate node recurses into `se` when `nw`, `ne`,
`sw` miss and `se` contains the point. -/
lemma insert_inter_se (f : Nat) (area : Area) (c1 c2 c3 c4 : Node) (p : Point)
    (harea : area.is_point_inside p = true) (h1 : c1.area.is_point_inside p = false)
    (h2 : c2.area.is_point_inside p = false) (h3 : c3.area.is_point_inside p = false)
    (h4 : c4.area.is_point_inside p = true) :
    Node.insert (f + 1) (.intermediate area c1 c2 c3 c4) p =
      (match Node.insert f c4 p with
       | some (c4', e) => some (.intermediate area c1 c2 c3 c4', e)
       | none => none) := by
  rw [Node.insert]
  simp [harea, h1, h2, h3, h4]

/-- A point inside a node's area is inside at least one of the four child
areas `subdivide` builds (the children overlap and jointly cover the parent). -/
lemma subdiv_cover (area : Area) (p : Point) (h : area.is_point_inside p = true) :
    (nwArea area).is_point_inside p = true ∨ (neArea area).is_point_inside p = true ∨
    (swArea area).is_point_inside p = true ∨ (seArea area).is_point_inside p = true := by
  simp only [Area.is_point_inside, nwArea, neArea, swArea, seArea, Bool.and_eq_true,
    decide_eq_true_eq, ge_iff_le] at h ⊢
  obtain ⟨⟨hx1, hx2⟩, hy1, hy2⟩ := h
  rcases le_total p.x area.center.x with hx | hx <;> rcases le_total p.y area.center.y with hy | hy
  · exact Or.inl ⟨⟨by linarith, by linarith⟩, by linarith, by linarith⟩
  · exact Or.inr (Or.inr (Or.inl ⟨⟨by linarith, by linarith⟩, by linarith, by linarith⟩))
  · exact Or.inr (Or.inl ⟨⟨by linarith, by linarith⟩, by linarith, by linarith⟩)
  · exact Or.inr (Or.inr (Or.inr ⟨⟨by linarith, by linarith⟩, by linarith, by linarith⟩))

/-- Subdividing a node whose points are `MAX_POINTS + 1` copies of a single
point `p` (inside the node's area) never terminates: every reinsertion routes
all copies into the same child leaf, which fills up and subdivides again, so
the embedding exhausts any amount of fuel. -/
lemma subdivide_replicate_none (p : Point) : ∀ (fuel : Nat) (area : Area),
    area.is_point_inside p = true →
    subdivideWith (Node.insert fuel) area (List.replicate (MAX_POINTS + 1) p) = none := by
  intro fuel
  induction fuel using Nat.strong_induction_on with
  | _ fuel ih =>
    intro area harea
    have key : ∀ (m : Nat), ∀ (j : Nat) (lnw lne lsw lse : List Point),
        MAX_POINTS + 1 ≤ j + m → j ≤ MAX_POINTS →
        ((nwArea area).is_point_inside p = true ∧ lnw = List.replicate j p ∨
         ((nwArea area).is_point_inside p = false ∧ (neArea area).is_point_inside p = true ∧
           lne = List.replicate j p) ∨
         ((nwArea area).is_point_inside p = false ∧ (neArea area).is_point_inside p = false ∧
           (swArea area).is_point_inside p = true ∧ lsw = List.replicate j p) ∨
         ((nwArea area).is_point_inside p = false ∧ (neArea area).is_point_inside p = false ∧
           (swArea area).is_point_inside p = false ∧ (seArea area).is_point_inside p = true ∧
           lse = List.replicate j p)) →
        (List.replicate m p).foldl (insStep (Node.insert fuel))
          (some (Node.intermediate area (Node.leaf (nwArea area) lnw)
            (Node.leaf (neArea area) lne) (Node.leaf (swArea area) lsw)
            (Node.leaf (seArea area) lse))) = none := by
      intro m
      induction m with
      | zero =>
        intro j lnw lne lsw lse hjm hj hcase
        omega
      | succ m ihm =>
        intro j lnw lne lsw lse hjm hj hcase
        rw [List.replicate_succ, List.foldl_cons]
        rcases fuel with _ | f
        · simp only [insStep, Node.insert]
          exact foldl_insStep_none _ _
        · rcases hcase with ⟨hnw, hl⟩ | ⟨hnw, hne, hl⟩ | ⟨hnw, hne, hsw, hl⟩ |
            ⟨hnw, hne, hsw, hse, hl⟩
          · subst hl
            simp only [insStep]
            rw [insert_inter_nw f area _ _ _ _ p harea (by simpa [Node.area] using hnw)]
            rcases f with _ | f'
            · rw [show Node.insert 0 (Node.leaf (nwArea area) (List.replicate j p)) p = none
                from rfl]
              exact foldl_insStep_none _ _
            · rcases Nat.lt_or_ge j MAX_POINTS with hroom | hfull
              · rw [insert_leaf_append f' (nwArea area) (List.replicate j p) p hnw
                  (by simp only [List.length_replicate]; omega)]
                rw [← List.replicate_succ']
                exact ihm (j + 1) _ _ _ _ (by omega) (by omega) (Or.inl ⟨hnw, rfl⟩)
              · have hj1000 : j = MAX_POINTS := by omega
                subst hj1000
                have hsub := ih f' (by omega) (nwArea area) hnw
                have hinner : Node.insert (f' + 1)
                    (Node.leaf (nwArea area) (List.replicate MAX_POINTS p)) p = none := by
                  rw [Node.insert]
                  rw [hnw, if_neg (by simp)]
                  simp only [← List.replicate_succ', List.length_replicate]
                  rw [if_pos (by omega), hsub]
                rw [hinner]
                exact foldl_insStep_none _ _
          · subst hl
            simp only [insStep]
            rw [insert_inter_ne f area _ _ _ _ p harea (by simpa [Node.area] using hnw)
              (by simpa [Node.area] using hne)]
            rcases f with _ | f'
            · rw [show Node.insert 0 (Node.leaf (neArea area) (List.replicate j p)) p = none
                from rfl]
              exact foldl_insStep_none _ _
            · rcases Nat.lt_or_ge j MAX_POINTS with hroom | hfull
              · rw [insert_leaf_append f' (neArea area) (List.replicate j p) p hne
                  (by simp only [List.length_replicate]; omega)]
                rw [← List.replicate_succ']
                exact ihm (j + 1) _ _ _ _ (by omega) (by omega)
                  (Or.inr (Or.inl ⟨hnw, hne, rfl⟩))
              · have hj1000 : j = MAX_POINTS := by omega
                subst hj1000
                have hsub := ih f' (by omega) (neArea area) hne
                have hinner : Node.insert (f' + 1)
                    (Node.leaf (neArea area) (List.replicate MAX_POINTS p)) p = none := by
                  rw [Node.insert]
                  rw [hne, if_neg (by simp)]
                  simp only [← List.replicate_succ', List.length_replicate]
                  rw [if_pos (by omega), hsub]
                rw [hinner]
                exact foldl_insStep_none _ _
          · subst hl
            simp only [insStep]
            rw [insert_inter_sw f area _ _ _ _ p harea (by simpa [Node.area] using hnw)
              (by simpa [Node.area] using hne) (by simpa [Node.area] using hsw)]
            rcases f with _ | f'
            · rw [show Node.insert 0 (Node.leaf (swArea area) (List.replicate j p)) p = none
                from rfl]
              exact foldl_insStep_none _ _
            · rcases Nat.lt_or_ge j MAX_POINTS with hroom | hfull
              · rw [insert_leaf_append f' (swArea area) (List.replicate j p) p hsw
                  (by simp only [List.length_replicate]; omega)]
                rw [← List.replicate_succ']
                exact ihm (j + 1) _ _ _ _ (by omega) (by omega)
                  (Or.inr (Or.inr (Or.inl ⟨hnw, hne, hsw, rfl⟩)))
              · have hj1000 : j = MAX_POINTS := by omega
                subst hj1000
                have hsub := ih f' (by omega) (swArea area) hsw
                have hinner : Node.insert (f' + 1)
                    (Node.leaf (swArea area) (List.replicate MAX_POINTS p)) p = none := by
                  rw [Node.insert]
                  rw [hsw, if_neg (by simp)]
                  simp only [← List.replicate_succ', List.length_replicate]
                  rw [if_pos (by omega), hsub]
                rw [hinner]
                exact foldl_insStep_none _ _
          · subst hl
            simp only [insStep]
            rw [insert_inter_se f area _ _ _ _ p harea (by simpa [Node.area] using hnw)
              (by simpa [Node.area] using hne) (by simpa [Node.area] using hsw)
              (by simpa [Node.area] using hse)]
            rcases f with _ | f'
            · rw [show Node.insert 0 (Node.leaf (seArea area) (List.replicate j p)) p = none
                from rfl]
              exact foldl_insStep_none _ _
            · rcases Nat.lt_or_ge j MAX_POINTS with hroom | hfull
              · rw [insert_leaf_append f' (seArea area) (List.replicate j p) p hse
                  (by simp only [List.length_replicate]; omega)]
                rw [← List.replicate_succ']
                exact ihm (j + 1) _ _ _ _ (by omega) (by omega)
                  (Or.inr (Or.inr (Or.inr ⟨hnw, hne, hsw, hse, rfl⟩)))
              · have hj1000 : j = MAX_POINTS := by omega
                subst hj1000
                have hsub := ih f' (by omega) (seArea area) hse
                have hinner : Node.insert (f' + 1)
                    (Node.leaf (seArea area) (List.replicate MAX_POINTS p)) p = none := by
                  rw [Node.insert]
                  rw [hse, if_neg (by simp)]
                  simp only [← List.replicate_succ', List.length_replicate]
                  rw [if_pos (by omega), hsub]
                rw [hinner]
                exact foldl_insStep_none _ _
    unfold subdivideWith freshIntermediate
    by_cases h1 : (nwArea area).is_point_inside p = true
    · exact key _ 0 [] [] [] [] (by omega) (by omega) (Or.inl ⟨h1, rfl⟩)
    · by_cases h2 : (neArea area).is_point_inside p = true
      · exact key _ 0 [] [] [] [] (by omega) (by omega)
          (Or.inr (Or.inl ⟨by simpa using h1, h2, rfl⟩))
      · by_cases h3 : (swArea area).is_point_inside p = true
        · exact key _ 0 [] [] [] [] (by omega) (by omega)
            (Or.inr (Or.inr (Or.inl ⟨by simpa using h1, by simpa using h2, h3, rfl⟩)))
        · by_cases h4 : (seArea area).is_point_inside p = true
          · exact key _ 0 [] [] [] [] (by omega) (by omega)
              (Or.inr (Or.inr (Or.inr ⟨by simpa using h1, by simpa using h2,
                by simpa using h3, h4, rfl⟩)))
          · rcases subdiv_cover area p harea with h | h | h | h <;> simp_all

/-- Inserting the origin point into a leaf (over `areaOne`) that already
holds `MAX_POINTS` copies of that same point exhausts every amount of fuel:
the triggered subdivision reinserts all `MAX_POINTS + 1` coincident copies
into the same child at every depth, so the recursion never bottoms out. -/
lemma insert_coincident_none (fuel : Nat) :
    Node.insert fuel (Node.leaf areaOne (List.replicate MAX_POINTS originPt)) originPt = none := by
  have hin : areaOne.is_point_inside originPt = true := by
    norm_num [Area.is_point_inside, areaOne, originPt]
  rcases fuel with _ | f
  · rfl
  · rw [Node.insert]
    rw [hin, if_neg (by simp)]
    simp only [← List.replicate_succ', List.length_replicate]
    rw [if_pos (by omega), subdivide_replicate_none originPt f areaOne hin]

/-- C2 (amended): `size`, `query`, `query_remove` and `nearest` are embedded
as plain (fuel-free) total structural recursions, but `insert` is not a total
function: inserting the origin point into a leaf that already holds
`MAX_POINTS` coincident copies of it makes `insert`/`subdivide` recurse
without bound, so the fueled embedding returns fuel-exhaustion `none` for
every fuel value. -/
theorem insert_diverges_on_coincident_points (fuel : Nat) :
    Node.insert fuel (Node.leaf areaOne (List.replicate MAX_POINTS originPt)) originPt = none :=
  insert_coincident_none fuel

/-- C2 (counterexample to the claim as stated): at the concrete input above
(the leaf over `areaOne` holding 1000 copies of the origin point), no fuel at
all makes the embedded `insert` return: the operation does not terminate, so
the shallow embedding of `insert` is not a total function. -/
theorem insert_never_succeeds_on_coincident_points :
    (∃ fuel : Nat, Node.insert fuel
      (Node.leaf areaOne (List.replicate MAX_POINTS originPt)) originPt ≠ none) = False := by
  refine eq_false ?_
  rintro ⟨fuel, hk⟩
  exact hk (insert_coincident_none fuel)

/-- Setting an element at index `i` does not change the first `i` elements. -/
lemma take_set (l : List Point) (i : Nat) (x : Point) : (l.set i x).take i = l.take i := by
  induction l generalizing i with
  | nil => simp
  | cons a l ih =>
    cases i with
    | zero => simp
    | succ i => simp only [List.set_cons_succ, List.take_succ_cons, ih i]

/-- Dropping the last element does not change the first `i` elements when `i`
is below the length. -/
lemma dropLast_take (l : List Point) : ∀ i : Nat, i < l.length → l.dropLast.take i = l.take i := by
  induction l with
  | nil => intro i h; simp at h
  | cons a l ih =>
    intro i h
    cases i with
    | zero => simp
    | succ i =>
      cases l with
      | nil => simp at h
      | cons b l' =>
        simp only [List.dropLast, List.take_succ_cons]
        rw [ih i (by simp at h ⊢; omega)]

/-- `swap_remove` at a valid index shortens the list by one. -/
lemma swapRemove_length (l : List Point) (i : Nat) (h : i < l.length) :
    (swapRemove l i).length = l.length - 1 := by
  unfold swapRemove
  simp

/-- `swap_remove` at index `i` does not change the first `i` elements. -/
lemma swapRemove_take (l : List Point) (i : Nat) (h : i < l.length) :
    (swapRemove l i).take i = l.take i := by
  unfold swapRemove
  rw [dropLast_take _ i (by simpa using h), take_set]

/-- Specification of the removal loop: on success the removed count matches
the written count, and every surviving point that matches the query area
already sat in the fully scanned prefix before `i` — so for a scan from
index 0 no surviving point matches. -/
lemma removeLoop_spec : ∀ (fuel : Nat) (a : Area) (pts : List Point) (i : Nat)
    (buf : List Point) (idx : Nat) (pts' buf' : List Point) (idx' : Nat),
    removeLoop fuel a pts i buf idx = some (pts', buf', idx') →
    pts'.length + idx' = pts.length + idx ∧ idx ≤ idx' ∧
    (∀ q ∈ pts', a.is_point_inside q = true → q ∈ pts.take i) := by
  intro fuel
  induction fuel with
  | zero =>
    intro a pts i buf idx pts' buf' idx' h
    exact absurd h (by simp [removeLoop])
  | succ fuel ih =>
    intro a pts i buf idx pts' buf' idx' h
    rw [removeLoop] at h
    by_cases hi : i < pts.length
    · rw [dif_pos hi] at h
      by_cases hm : a.is_point_inside pts[i] = false
      · rw [if_pos hm] at h
        obtain ⟨l1, l2, l3⟩ := ih a pts (i + 1) buf idx pts' buf' idx' h
        refine ⟨l1, l2, ?_⟩
        intro q hq hmq
        have hq' := l3 q hq hmq
        rw [List.take_succ, List.getElem?_eq_getElem hi] at hq'
        rcases List.mem_append.mp hq' with h' | h'
        · exact h'
        · simp at h'
          subst h'
          simp [hmq] at hm
      · rw [if_neg hm] at h
        by_cases hb : idx < buf.length
        · rw [if_pos hb] at h
          obtain ⟨l1, l2, l3⟩ := ih a (swapRemove pts i) i (buf.set idx pts[i]) (idx + 1)
            pts' buf' idx' h
          have hsl := swapRemove_length pts i hi
          refine ⟨by omega, by omega, ?_⟩
          intro q hq hmq
          have hq' := l3 q hq hmq
          rwa [swapRemove_take pts i hi] at hq'
        · rw [if_neg hb] at h
          cases h
    · rw [dif_neg hi] at h
      simp at h
      obtain ⟨h1, h2, h3⟩ := h
      subst h1
      subst h2
      subst h3
      refine ⟨rfl, le_refl _, ?_⟩
      intro q hq _
      rw [List.take_of_length_le (by omega)]
      exact hq

/-- The clone-scanning loop over a leaf with no matching point walks to the
end and writes nothing. -/
lemma scanLoop_clean : ∀ (fuel : Nat) (a : Area) (pts : List Point) (i : Nat)
    (buf : List Point) (idx : Nat),
    pts.length - i < fuel → (∀ q ∈ pts, a.is_point_inside q = false) →
    scanLoop fuel a pts i buf idx = some (buf, idx) := by
  intro fuel
  induction fuel with
  | zero => intro a pts i buf idx hf hq; omega
  | succ fuel ih =>
    intro a pts i buf idx hf hq
    rw [scanLoop]
    by_cases hi : i < pts.length
    · rw [dif_pos hi, if_pos (hq pts[i] (List.getElem_mem hi))]
      exact ih a pts (i + 1) buf idx (by omega) hq
    · rw [dif_neg hi]

/-- A node whose area misses the query area is vacuously clean: the query
never descends into it. -/
lemma clean_of_not_intersects (a : Area) (n : Node) (h : n.area.intersects a = false) :
    Clean a n := by
  cases n with
  | leaf ar pts =>
    intro hinter
    simp [Node.area] at h
    simp [h] at hinter
  | intermediate ar c1 c2 c3 c4 =>
    intro hinter
    simp [Node.area] at h
    simp [h] at hinter

/-- One child step of `query_remove` at an intermediate node: either the child
is skipped (area miss, state unchanged, vacuously clean) or the child's spec
applies. -/
lemma queryRem_child_step (a : Area) (c : Node) (r : List Point) (i : Nat)
    (c' : Node) (r' : List Point) (i' : Nat)
    (hspec : ∀ (buf : List Point) (idx : Nat) (n' : Node) (buf' : List Point) (idx' : Nat),
      Node.queryRem a c buf idx = some (.ok (n', buf', idx')) →
      c.area.intersects a = true ∧ n'.area = c.area ∧ n'.size + idx' = c.size + idx ∧
        idx ≤ idx' ∧ Clean a n')
    (h : (if c.area.intersects a = true then Node.queryRem a c r i
          else some (.ok (c, r, i))) = some (.ok (c', r', i'))) :
    c'.area = c.area ∧ c'.size + i' = c.size + i ∧ i ≤ i' ∧ Clean a c' := by
  by_cases hint : c.area.intersects a = true
  · rw [if_pos hint] at h
    have hs := hspec r i c' r' i' h
    exact ⟨hs.2.1, hs.2.2.1, hs.2.2.2.1, hs.2.2.2.2⟩
  · rw [if_neg hint] at h
    simp at h
    obtain ⟨h1, h2, h3⟩ := h
    subst h1
    subst h2
    subst h3
    exact ⟨rfl, rfl, le_refl _, clean_of_not_intersects a c (by simpa using hint)⟩

/-- Specification of `Node::query` with the removing `get_point`: on success
the traversal entered the root (areas intersect), node areas are untouched,
the size drop equals the count written, and the result tree is clean for the
queried area. -/
lemma queryRem_spec (a : Area) : ∀ (n : Node) (buf : List Point) (idx : Nat)
    (n' : Node) (buf' : List Point) (idx' : Nat),
    Node.queryRem a n buf idx = some (.ok (n', buf', idx')) →
    n.area.intersects a = true ∧ n'.area = n.area ∧
    n'.size + idx' = n.size + idx ∧ idx ≤ idx' ∧ Clean a n' := by
  intro n
  induction n with
  | leaf ar pts =>
    intro buf idx n' buf' idx' h
    rw [Node.queryRem] at h
    by_cases hint : ar.intersects a = false
    · rw [if_pos hint] at h
      simp at h
    · rw [if_neg hint] at h
      rcases hr : removeLoop (loopFuel pts buf) a pts 0 buf idx with _ | ⟨p1, b1, i1⟩
      · rw [hr] at h
        cases h
      · rw [hr] at h
        simp at h
        obtain ⟨hn', hb', hi'⟩ := h
        obtain ⟨l1, l2, l3⟩ := removeLoop_spec _ a pts 0 buf idx p1 b1 i1 hr
        subst hn'
        subst hb'
        subst hi'
        refine ⟨by simpa using hint, rfl, by simp only [Node.size]; omega, l2, ?_⟩
        refine fun hinter q hq => ?_
        by_contra habs
        have hq' := l3 q hq (by simpa using habs)
        simp at hq'
  | intermediate ar c1 c2 c3 c4 ih1 ih2 ih3 ih4 =>
    intro buf idx n' buf' idx' h
    rw [Node.queryRem] at h
    by_cases hint : ar.intersects a = false
    · rw [if_pos hint] at h
      simp at h
    · rw [if_neg hint] at h
      rcases h1 : (if c1.area.intersects a = true then Node.queryRem a c1 buf idx
          else some (.ok (c1, buf, idx))) with _ | x1
      · simp [h1] at h
      · rcases x1 with e1 | ⟨c1', r1, i1⟩
        · simp [h1] at h
        · rcases h2 : (if c2.area.intersects a = true then Node.queryRem a c2 r1 i1
              else some (.ok (c2, r1, i1))) with _ | x2
          · simp [h1, h2] at h
          · rcases x2 with e2 | ⟨c2', r2, i2⟩
            · simp [h1, h2] at h
            · rcases h3 : (if c3.area.intersects a = true then Node.queryRem a c3 r2 i2
                  else some (.ok (c3, r2, i2))) with _ | x3
              · simp [h1, h2, h3] at h
              · rcases x3 with e3 | ⟨c3', r3, i3⟩
                · simp [h1, h2, h3] at h
                · rcases h4 : (if c4.area.intersects a = true then Node.queryRem a c4 r3 i3
                      else some (.ok (c4, r3, i3))) with _ | x4
                  · simp [h1, h2, h3, h4] at h
                  · rcases x4 with e4 | ⟨c4', r4, i4⟩
                    · simp [h1, h2, h3, h4] at h
                    · simp only [h1, h2, h3, h4] at h
                      simp at h
                      obtain ⟨hn', hb', hi'⟩ := h
                      obtain ⟨a1, s1, le1, cl1⟩ := queryRem_child_step a c1 buf idx c1' r1 i1 ih1 h1
                      obtain ⟨a2, s2, le2, cl2⟩ := queryRem_child_step a c2 r1 i1 c2' r2 i2 ih2 h2
                      obtain ⟨a3, s3, le3, cl3⟩ := queryRem_child_step a c3 r2 i2 c3' r3 i3 ih3 h3
                      obtain ⟨a4, s4, le4, cl4⟩ := queryRem_child_step a c4 r3 i3 c4' r4 i4 ih4 h4
                      subst hn'
                      subst hb'
                      subst hi'
                      refine ⟨by simpa using hint, rfl, by simp only [Node.size]; omega,
                        by omega, ?_⟩
                      exact fun hinter => ⟨cl1, cl2, cl3, cl4⟩

/-- `Node::query` with the cloning `get_point` on a clean node whose area
intersects the query area succeeds and writes nothing. -/
lemma queryClone_clean (a : Area) : ∀ (n : Node), Clean a n →
    ∀ (buf : List Point) (idx : Nat), n.area.intersects a = true →
    Node.queryClone a n buf idx = some (.ok (buf, idx)) := by
  intro n
  induction n with
  | leaf ar pts =>
    intro hc buf idx hint
    have hint' : ar.intersects a = true := by simpa [Node.area] using hint
    have hq : ∀ q ∈ pts, a.is_point_inside q = false := hc hint'
    rw [Node.queryClone, if_neg (by simp [hint']),
      scanLoop_clean (loopFuel pts buf) a pts 0 buf idx (by simp [loopFuel]; omega) hq]
  | intermediate ar c1 c2 c3 c4 ih1 ih2 ih3 ih4 =>
    intro hc buf idx hint
    have hint' : ar.intersects a = true := by simpa [Node.area] using hint
    obtain ⟨hc1, hc2, hc3, hc4⟩ := hc hint'
    have s1 : (if c1.area.intersects a = true then Node.queryClone a c1 buf idx
        else some (.ok (buf, idx))) = some (.ok (buf, idx)) := by
      by_cases h1 : c1.area.intersects a = true
      · rw [if_pos h1]
        exact ih1 hc1 buf idx h1
      · rw [if_neg h1]
    have s2 : (if c2.area.intersects a = true then Node.queryClone a c2 buf idx
        else some (.ok (buf, idx))) = some (.ok (buf, idx)) := by
      by_cases h2 : c2.area.intersects a = true
      · rw [if_pos h2]
        exact ih2 hc2 buf idx h2
      · rw [if_neg h2]
    have s3 : (if c3.area.intersects a = true then Node.queryClone a c3 buf idx
        else some (.ok (buf, idx))) = some (.ok (buf, idx)) := by
      by_cases h3 : c3.area.intersects a = true
      · rw [if_pos h3]
        exact ih3 hc3 buf idx h3
      · rw [if_neg h3]
    have s4 : (if c4.area.intersects a = true then Node.queryClone a c4 buf idx
        else some (.ok (buf, idx))) = some (.ok (buf, idx)) := by
      by_cases h4 : c4.area.intersects a = true
      · rw [if_pos h4]
        exact ih4 hc4 buf idx h4
      · rw [if_neg h4]
    rw [Node.queryClone]
    simp only [if_neg (show ¬(ar.intersects a = false) by simp [hint']), s1, s2, s3, s4]

/-- C5: if `query_remove` over area `a` succeeds with `k` points written, then
`size()` drops by exactly `k`, and an immediately repeated `query` over the
same area succeeds and returns 0 matches (with any results buffer). -/
theorem query_remove_drops_size_and_empties (t : Node) (a : Area) (buf : List Point)
    (t' : Node) (res : List Point) (k : Nat)
    (h : QuadTree.query_remove t a buf = some (.ok (t', res, k))) :
    QuadTree.size t' + k = QuadTree.size t ∧
    ∀ buf₂ : List Point, QuadTree.query t' a buf₂ = some (.ok (buf₂, 0)) := by
  obtain ⟨hint, harea, hsize, hle, hclean⟩ := queryRem_spec a t buf 0 t' res k h
  refine ⟨by simpa [QuadTree.size] using hsize, ?_⟩
  intro buf₂
  unfold QuadTree.query
  exact queryClone_clean a t' hclean buf₂ 0 (by rw [harea]; exact hint)

/-- Witness for `query_remove_drops_size_and_empties`: removing the single
matching point from a one-point tree writes 1 point, drops the size from 1 to
0, and the repeat query finds nothing. -/
theorem query_remove_drops_size_and_empties_witness :
    QuadTree.query_remove (Node.leaf areaOne [originPt]) areaOne [fillPt] =
      some (.ok (Node.leaf areaOne [], [originPt], 1)) ∧
    QuadTree.size (Node.leaf areaOne []) + 1 = QuadTree.size (Node.leaf areaOne [originPt]) ∧
    QuadTree.query (Node.leaf areaOne []) areaOne [] = some (.ok ([], 0)) := by
  have h : QuadTree.query_remove (Node.leaf areaOne [originPt]) areaOne [fillPt] =
      some (.ok (Node.leaf areaOne [], [originPt], 1)) := by
    norm_num [QuadTree.query_remove, Node.queryRem, removeLoop, loopFuel, swapRemove,
      Area.intersects, Area.is_point_inside, areaOne, originPt, fillPt]
  have hc := query_remove_drops_size_and_empties _ _ _ _ _ _ h
  exact ⟨h, hc.1, hc.2 []⟩

